import Mathlib

set_option maxRecDepth 1000000

/-!
Verification of the `ecc_compact` module of helium-crypto-rs: a
network-tagged, compactly-encoded P-256 keypair format with ECDSA
sign/verify.  Pure functions of the Rust module are embedded as
executable Lean definitions; the curve/codec primitives consumed from
the external library and the crate-level tag/keypair scaffolding that
sits outside this module are modelled from the specification.
Byte strings are `List Nat` with each element intended `< 256`.
-/

namespace HeliumEccCompact

/-- Modelled from the spec: the P-256 (secp256r1) base-field prime, for the
curve arithmetic the module consumes as an external primitive (§1, §6). -/
def fieldPrime : Nat :=
  0xffffffff00000001000000000000000000000000ffffffffffffffffffffffff

/-- Modelled from the spec: the P-256 curve coefficient a = -3 mod p. -/
def curveA : Nat := fieldPrime - 3

/-- Modelled from the spec: the P-256 curve coefficient b. -/
def curveB : Nat :=
  0x5ac635d8aa3a93e7b3ebbd55769886bc651d06b0cc53b0f63bce3c3e27d2604b

/-- Modelled from the spec: the P-256 group order n (§3: scalars lie in [1, n-1]). -/
def groupOrder : Nat :=
  0xffffffff00000000ffffffffffffffffbce6faada7179e84f3b9cac2fc632551

/-- Modelled from the spec: x-coordinate of the P-256 base point G. -/
def baseX : Nat :=
  0x6b17d1f2e12c4247f8bce6e563a440f277037d812deb33a0f4a13945d898c296

/-- Modelled from the spec: y-coordinate of the P-256 base point G. -/
def baseY : Nat :=
  0x4fe342e2fe1a7f9b8ee7eb4a7c0f9e162bce33576b315ececbb6406837bf51f5

/-- Fuelled square-and-multiply modular exponentiation; fuel bounds the bit
length of the exponent.  Used so that concrete 256-bit instances reduce in
the kernel. -/
def powModAux (m : Nat) : Nat → Nat → Nat → Nat
  | 0, _, _ => 1 % m
  | fuel + 1, bse, e =>
    if e = 0 then 1 % m
    else
      let r := powModAux m fuel (bse * bse % m) (e / 2)
      if e % 2 = 1 then r * bse % m else r

/-- Modular exponentiation `bse ^ e % m` for exponents below `2 ^ 300`. -/
def powMod (m bse e : Nat) : Nat := powModAux m 300 (bse % m) e

/-- Field addition mod p. -/
def fadd (x y : Nat) : Nat := (x + y) % fieldPrime

/-- Field multiplication mod p. -/
def fmul (x y : Nat) : Nat := x * y % fieldPrime

/-- Field subtraction mod p (computed additively to stay in `Nat`). -/
def fsub (x y : Nat) : Nat :=
  (x % fieldPrime + (fieldPrime - y % fieldPrime)) % fieldPrime

/-- Field inversion by Fermat exponentiation, as the external primitive
library computes it for affine formulas. -/
def finv (x : Nat) : Nat := powMod fieldPrime x (fieldPrime - 2)

/-- An affine curve point (x, y); the point at infinity is represented
separately as `none` where it can occur (§3, glossary). -/
structure AffinePoint where
  x : Nat
  y : Nat
deriving DecidableEq, Repr

/-- The base point G. -/
def basePoint : AffinePoint := ⟨baseX, baseY⟩

/-- Modelled from the spec: affine point doubling over P-256 (external
curve-arithmetic primitive, §1, §6). -/
def pdouble : Option AffinePoint → Option AffinePoint
  | none => none
  | some q =>
    if q.y % fieldPrime = 0 then none
    else
      let l := fmul (fadd (fmul 3 (fmul q.x q.x)) curveA) (finv (fmul 2 q.y))
      let x3 := fsub (fmul l l) (fadd q.x q.x)
      some ⟨x3, fsub (fmul l (fsub q.x x3)) q.y⟩

/-- Modelled from the spec: affine point addition over P-256 (external
curve-arithmetic primitive, §1, §6). -/
def padd : Option AffinePoint → Option AffinePoint → Option AffinePoint
  | none, q => q
  | p, none => p
  | some q1, some q2 =>
    if q1.x = q2.x then
      if (q1.y + q2.y) % fieldPrime = 0 then none
      else pdouble (some q1)
    else
      let l := fmul (fsub q2.y q1.y) (finv (fsub q2.x q1.x))
      let x3 := fsub (fmul l l) (fadd q1.x q2.x)
      some ⟨x3, fsub (fmul l (fsub q1.x x3)) q1.y⟩

/-- Fuelled double-and-add scalar multiplication. -/
def scalarMulAux : Nat → Nat → Option AffinePoint → Option AffinePoint
  | 0, _, _ => none
  | _ + 1, 0, _ => none
  | fuel + 1, k, q =>
    let r := scalarMulAux fuel (k / 2) (pdouble q)
    if k % 2 = 1 then padd q r else r

/-- Modelled from the spec: scalar multiplication k·Q over P-256 (external
curve-arithmetic primitive, §1, §6); total for scalars below `2 ^ 300`. -/
def scalarMul (k : Nat) (q : Option AffinePoint) : Option AffinePoint :=
  scalarMulAux 300 k q

/-- Modelled from the spec: the public point of a private scalar is
scalar·G (§3, §4.4). -/
def pubOf (d : Nat) : Option AffinePoint := scalarMul d (some basePoint)

/-- Modelled from the spec: square root mod p when it exists, via the
p ≡ 3 (mod 4) exponentiation; the result is checked so that `some y`
always satisfies `y * y ≡ al`. -/
def sqrtP (al : Nat) : Option Nat :=
  let r := powMod fieldPrime al ((fieldPrime + 1) / 4)
  if r * r % fieldPrime = al % fieldPrime then some r else none

/-- Modelled from the spec (§4.1 `decode`): recover the unique compactable
point with the given x-coordinate — compute y² = x³ + ax + b, take the
square root if it exists, and select the canonical (minimal) branch
min(y, p − y); `none` when x is not a valid field element producing a
point on the curve. -/
def decompactPoint (x : Nat) : Option AffinePoint :=
  if x < fieldPrime then
    match sqrtP ((x * x % fieldPrime * x + curveA * x + curveB) % fieldPrime) with
    | some y0 => some ⟨x, min y0 (fieldPrime - y0)⟩
    | none => none
  else none

/-- Modelled from the spec (§4.1 `is_compactable`): a point is compactable
iff decompacting its x-coordinate yields back the same point — a pure,
deterministic function of the point. -/
def is_compactable (q : AffinePoint) : Bool := decompactPoint q.x = some q

/-- Compactability lifted to a possibly-infinite point; the point at
infinity is never compactable (it has no affine encoding). -/
def is_compactableOpt : Option AffinePoint → Bool
  | none => false
  | some q => is_compactable q

instance {ε α : Type} [DecidableEq ε] [DecidableEq α] : DecidableEq (Except ε α)
  | .ok a, .ok b =>
    if h : a = b then .isTrue (by rw [h])
    else .isFalse (by intro c; injection c; contradiction)
  | .ok _, .error _ => .isFalse (by intro c; injection c)
  | .error _, .ok _ => .isFalse (by intro c; injection c)
  | .error a, .error b =>
    if h : a = b then .isTrue (by rw [h])
    else .isFalse (by intro c; injection c; contradiction)

/-! ### Byte-string encodings -/

/-- Fixed-width big-endian byte encoding: `beBytes k v` is the `k`-byte
big-endian, zero-padded encoding of `v mod 256^k` (§4.4, §6). -/
def beBytes : Nat → Nat → List Nat
  | 0, _ => []
  | len + 1, v => beBytes len (v / 256) ++ [v % 256]

/-- Big-endian interpretation of a byte string as a natural number. -/
def ofBeBytes (l : List Nat) : Nat := l.foldl (fun acc d => acc * 256 + d) 0

/-! ### Errors, networks and key tags (crate-level scaffolding) -/

/-- Modelled from the spec (§7): the error kinds the module reports; the
crate's `error` module is outside this source file. -/
inductive Error
  | UnknownNetwork
  | InvalidScalar
  | NotCompact
  | SignatureDecode
  | SignatureInvalid
deriving DecidableEq, Repr

/-- Modelled from the spec (§3, §6): the enum of supported networks; the
crate's `Network` type is outside this source file. -/
inductive Network
  | MainNet
  | TestNet
deriving DecidableEq, Repr

/-- Modelled from the spec (§6): the single-byte code of a network, held in
the high bits of the key tag. -/
def Network.code : Network → Nat
  | .MainNet => 0
  | .TestNet => 1

/-- Modelled from the spec (§3, §9): the key-type enum; this module only
uses the compact-EC variant. -/
inductive KeyType
  | EccCompact
deriving DecidableEq, Repr

/-- Modelled from the spec (§6): the key-type code, held in the low bits of
the key tag; the compact-EC code. -/
def KeyType.code : KeyType → Nat
  | .EccCompact => 0

/-- Modelled from the spec (§3): a KeyTag packs a network and key type. -/
structure KeyTag where
  network : Network
  key_type : KeyType
deriving DecidableEq, Repr

/-- Modelled from the spec (§6): the one-byte bit-packing of a KeyTag —
high bits select the network, low bits the key type. -/
def keyTagByte (t : KeyTag) : Nat := t.network.code <<< 4 ||| t.key_type.code

/-- Modelled from the spec (§4.4): parsing the tag byte recognises the
network from the high bits, failing with `UnknownNetworkError` on an
unrecognised network byte. -/
def Network.tryFrom (v : Nat) : Except Error Network :=
  match v >>> 4 with
  | 0 => .ok .MainNet
  | 1 => .ok .TestNet
  | _ => .error .UnknownNetwork

/-! ### Secret scalars and keypairs -/

/-- Modelled from the spec (§3, §4.4): parse a 32-byte big-endian secret
scalar, failing with `InvalidScalarError` unless the value lies in
[1, n-1] (the external `SecretKey::from_bytes`). -/
def secretKeyFromBytes (l : List Nat) : Except Error Nat :=
  if l.length = 32 then
    let d := ofBeBytes l
    if 1 ≤ d ∧ d < groupOrder then .ok d else .error .InvalidScalar
  else .error .InvalidScalar

/-- Modelled from the spec (§3): the crate-level public key wrapper holds
the network tag it was constructed under next to the wrapped point. -/
def forNetwork (nw : Network) (q : Option AffinePoint) : Network × Option AffinePoint :=
  (nw, q)

/-- The keypair of this module: network tag, wrapped public key, private
scalar (the crate's generic `keypair::Keypair` instantiated at the P-256
secret key, §3). -/
structure Keypair where
  network : Network
  public_key : Network × Option AffinePoint
  inner : Nat
deriving DecidableEq, Repr

/-- `impl TryFrom<&[u8]> for Keypair`: byte 0 is parsed as the network,
bytes 1.. as the secret scalar, and the public key is derived from the
scalar; compactability is not re-checked on this path.  (Defined here on
the 33-byte layout; on an empty input the Rust code panics on `input[0]`,
which is outside every claim's scope.) -/
def Keypair.tryFrom : List Nat → Except Error Keypair
  | [] => .error .UnknownNetwork
  | t :: rest =>
    match Network.tryFrom t with
    | .error e => .error e
    | .ok network =>
      match secretKeyFromBytes rest with
      | .error e => .error e
      | .ok inner => .ok ⟨network, forNetwork network (pubOf inner), inner⟩

/-- `impl IntoBytes for Keypair`: write the key tag at index 0 and the
32-byte scalar encoding over bytes 1.. of the output buffer. -/
def Keypair.bytesInto (k : Keypair) (output : List Nat) : List Nat :=
  ((output.set 0 (keyTagByte ⟨k.network, .EccCompact⟩)).take 1) ++ beBytes 32 k.inner

/-- `Keypair::to_bytes`: serialize into a fresh 33-byte zeroed buffer. -/
def Keypair.to_bytes (k : Keypair) : List Nat :=
  k.bytesInto (List.replicate 33 0)

/-- The compactability predicate the generation loop tests at draw `i` of
the CSPRNG stream `s` (the stream models successive results of the
external `SecretKey::random`). -/
def compactableAt (s : Nat → Nat) (i : Nat) : Prop :=
  is_compactableOpt (pubOf (s i)) = true

instance (s : Nat → Nat) : DecidablePred (compactableAt s) := fun _ =>
  inferInstanceAs (Decidable (_ = true))

/-- `Keypair::generate`: draw scalars from the CSPRNG stream and loop while
the derived public point is not compactable; the result is the keypair of
the first draw whose point is compactable.  Totality requires the stream to
eventually yield a compactable draw, which is the hypothesis `h`. -/
def Keypair.generate (network : Network) (s : Nat → Nat)
    (h : ∃ i, compactableAt s i) : Keypair :=
  let i := Nat.find h
  ⟨network, forNetwork network (pubOf (s i)), s i⟩

/-- `Keypair::generate_from_entropy`: derive the scalar from the supplied
entropy bytes, fail with `NotCompactError` if its public point is not
compactable, and never resample. -/
def Keypair.generate_from_entropy (network : Network) (entropy : List Nat) :
    Except Error Keypair :=
  match secretKeyFromBytes entropy with
  | .error e => .error e
  | .ok inner =>
    if is_compactableOpt (pubOf inner) then
      .ok ⟨network, forNetwork network (pubOf inner), inner⟩
    else .error .NotCompact

/-! ### Public keys -/

/-- The module's public key: a wrapped (non-identity) curve point. -/
structure PublicKey where
  point : AffinePoint
deriving DecidableEq, Repr

/-- Decompaction of a 32-byte body: interpret the bytes big-endian and
decompact the resulting x-coordinate (the external
`AffinePoint::decompact` on a `FieldBytes`). -/
def decompactBytes (body : List Nat) : Option AffinePoint :=
  if body.length = 32 then decompactPoint (ofBeBytes body) else none

/-- `impl TryFrom<&[u8]> for PublicKey`: decompact bytes 1.. of the input,
failing with `NotCompactError` when no point exists; the decompacted point
is never the identity, so the `from_affine` identity check always passes.
(Defined here on the 33-byte layout; on a body of a different length the
Rust code panics in `FieldBytes::from_slice`, outside every claim's
scope.) -/
def PublicKey.tryFrom (input : List Nat) : Except Error PublicKey :=
  match decompactBytes (input.drop 1) with
  | some pt => .ok ⟨pt⟩
  | none => .error .NotCompact

/-- `impl IntoBytes for PublicKey`: the 32-byte compact encoding of the
point — exactly its x-coordinate, big-endian (§4.1 `encode`); callers only
hold compactable points, for which the `expect` cannot panic. -/
def PublicKey.bytes_into (k : PublicKey) : List Nat := beBytes 32 k.point.x

/-! ### SHA-256 (the digest the external ECDSA suite applies to messages) -/

/-- Truncation to a 32-bit word. -/
def w32 (x : Nat) : Nat := x % 4294967296

/-- Right rotation of a 32-bit word. -/
def rotr (k x : Nat) : Nat := x >>> k ||| w32 (x <<< (32 - k))

/-- Modelled from the spec: SHA-256 round constants (FIPS 180-4), part of
the external signature suite (§1, §6). -/
def sha256K : List Nat :=
  [1116352408, 1899447441, 3049323471, 3921009573, 961987163,
   1508970993, 2453635748, 2870763221, 3624381080, 310598401,
   607225278, 1426881987, 1925078388, 2162078206, 2614888103,
   3248222580, 3835390401, 4022224774, 264347078, 604807628,
   770255983, 1249150122, 1555081692, 1996064986, 2554220882,
   2821834349, 2952996808, 3210313671, 3336571891, 3584528711,
   113926993, 338241895, 666307205, 773529912, 1294757372,
   1396182291, 1695183700, 1986661051, 2177026350, 2456956037,
   2730485921, 2820302411, 3259730800, 3345764771, 3516065817,
   3600352804, 4094571909, 275423344, 430227734, 506948616,
   659060556, 883997877, 958139571, 1322822218, 1537002063,
   1747873779, 1955562222, 2024104815, 2227730452, 2361852424,
   2428436474, 2756734187, 3204031479, 3329325298]

/-- Modelled from the spec: SHA-256 initial hash value (FIPS 180-4). -/
def sha256H0 : List Nat :=
  [1779033703, 3144134277, 1013904242, 2773480762,
   1359893119, 2600822924, 528734635, 1541459225]

/-- SHA-256 message padding: append `0x80`, zeros to 56 mod 64, and the
64-bit big-endian bit length. -/
def sha256pad (msg : List Nat) : List Nat :=
  let l := msg.length
  msg ++ [128] ++ List.replicate ((64 - (l + 9) % 64) % 64) 0 ++ beBytes 8 (8 * l)

/-- Group a byte string into 32-bit big-endian words. -/
def toWords : List Nat → List Nat
  | a :: b :: c :: d :: rest => (((a * 256 + b) * 256 + c) * 256 + d) :: toWords rest
  | _ => []

/-- SHA-256 small sigma functions. -/
def smallSigma0 (x : Nat) : Nat := rotr 7 x ^^^ rotr 18 x ^^^ (x >>> 3)

/-- SHA-256 small sigma functions. -/
def smallSigma1 (x : Nat) : Nat := rotr 17 x ^^^ rotr 19 x ^^^ (x >>> 10)

/-- SHA-256 big sigma functions. -/
def bigSigma0 (x : Nat) : Nat := rotr 2 x ^^^ rotr 13 x ^^^ rotr 22 x

/-- SHA-256 big sigma functions. -/
def bigSigma1 (x : Nat) : Nat := rotr 6 x ^^^ rotr 11 x ^^^ rotr 25 x

/-- Extend a 16-word block to the 64-word message schedule (`k` words are
still to be appended). -/
def extendSchedule : Nat → List Nat → List Nat
  | 0, ws => ws
  | k + 1, ws =>
    let i := ws.length
    let wi := w32 (smallSigma1 (ws.getD (i - 2) 0) + ws.getD (i - 7) 0 +
      smallSigma0 (ws.getD (i - 15) 0) + ws.getD (i - 16) 0)
    extendSchedule k (ws ++ [wi])

/-- One SHA-256 compression round on the eight-word state. -/
def compressRound (st : List Nat) (ki wi : Nat) : List Nat :=
  match st with
  | [a0, b0, c0, d0, e0, f0, g0, h0] =>
    let t1 := w32 (h0 + bigSigma1 e0 + ((e0 &&& f0) ^^^ ((e0 ^^^ 4294967295) &&& g0)) + ki + wi)
    let t2 := w32 (bigSigma0 a0 + ((a0 &&& b0) ^^^ (a0 &&& c0) ^^^ (b0 &&& c0)))
    [w32 (t1 + t2), a0, b0, c0, w32 (d0 + t1), e0, f0, g0]
  | other => other

/-- SHA-256 compression of one 64-byte block into the running hash. -/
def compressBlock (h : List Nat) (block : List Nat) : List Nat :=
  let ws := extendSchedule 48 (toWords block)
  let st := (List.zip sha256K ws).foldl (fun st kw => compressRound st kw.1 kw.2) h
  (List.zip h st).map (fun xy => w32 (xy.1 + xy.2))

/-- Split a byte string into 64-byte blocks (fuelled; the fuel given by
callers always covers the length). -/
def chunks64Aux : Nat → List Nat → List (List Nat)
  | 0, _ => []
  | _ + 1, [] => []
  | f + 1, l => l.take 64 :: chunks64Aux f (l.drop 64)

/-- Modelled from the spec: the SHA-256 digest of a message (FIPS 180-4),
the hash the external ECDSA suite signs and verifies over (§1, §4.3). -/
def sha256 (msg : List Nat) : List Nat :=
  let padded := sha256pad msg
  let blocks := chunks64Aux (msg.length + 73) padded
  (blocks.foldl compressBlock sha256H0).foldr (fun w acc => beBytes 4 w ++ acc) []

/-! ### DER signatures and verification -/

/-- Modelled from the spec (§4.3): the content octets of a DER INTEGER that
is non-negative and minimally encoded; `none` on a negative or non-minimal
encoding. -/
def derUIntValue : List Nat → Option Nat
  | [] => none
  | b0 :: tl =>
    if 128 ≤ b0 then none
    else if b0 = 0 then
      match tl with
      | [] => some 0
      | b1 :: _ => if 128 ≤ b1 then some (ofBeBytes tl) else none
    else some (ofBeBytes (b0 :: tl))

/-- Modelled from the spec (§4.3, §6): strict DER parse of an ECDSA
signature — a SEQUENCE (tag 0x30, short-form definite length covering the
whole rest) of two minimally-encoded non-negative INTEGERs (tag 0x02) of
at most 33 content octets each; `none` on any other byte string. -/
def parseDerSig (sig : List Nat) : Option (Nat × Nat) :=
  match sig with
  | 48 :: len :: rest =>
    if len < 128 ∧ rest.length = len then
      match rest with
      | 2 :: rlen :: rest2 =>
        if rlen < 128 ∧ rlen ≤ rest2.length ∧ rlen ≤ 33 then
          match rest2.drop rlen with
          | 2 :: slen :: rest4 =>
            if slen < 128 ∧ rest4.length = slen ∧ slen ≤ 33 then
              match derUIntValue (rest2.take rlen), derUIntValue rest4 with
              | some r, some s => some (r, s)
              | _, _ => none
            else none
          | _ => none
        else none
      | _ => none
    else none
  | _ => none

/-- Modelled from the spec (§4.3): the external ECDSA verification
primitive — with r, s in [1, n-1], z the SHA-256 digest of the message,
w = s⁻¹ mod n, accept iff the point u₁·G + u₂·Q (u₁ = zw, u₂ = rw) is
finite with x-coordinate congruent to r mod n. -/
def rawVerify (q : AffinePoint) (msg : List Nat) (r s : Nat) : Bool :=
  if 1 ≤ r ∧ r < groupOrder ∧ 1 ≤ s ∧ s < groupOrder then
    let z := ofBeBytes (sha256 msg) % groupOrder
    let w := powMod groupOrder s (groupOrder - 2)
    let u1 := z * w % groupOrder
    let u2 := r * w % groupOrder
    match padd (scalarMul u1 (some basePoint)) (scalarMul u2 (some q)) with
    | none => false
    | some bigR => bigR.x % groupOrder = r
  else false

/-- `impl Verify for PublicKey`: parse the signature as DER (failing with
`SignatureDecodeError`), then check it against the message and public
point, returning success or `SignatureInvalidError`. -/
def PublicKey.verify (k : PublicKey) (msg sig : List Nat) : Except Error Unit :=
  match parseDerSig sig with
  | none => .error .SignatureDecode
  | some (r, s) =>
    if rawVerify k.point msg r s then .ok () else .error .SignatureInvalid

attribute [irreducible] powModAux sqrtP scalarMulAux pdouble padd finv

/-! ### Helper lemmas -/

theorem beBytes_length (k v : Nat) : (beBytes k v).length = k := by
  induction k generalizing v with
  | zero => rfl
  | succ k ih => simp [beBytes, ih]

theorem beBytes_lt (k v : Nat) : ∀ b ∈ beBytes k v, b < 256 := by
  induction k generalizing v with
  | zero => intro b hb; simp [beBytes] at hb
  | succ k ih =>
    intro b hb
    simp only [beBytes, List.mem_append, List.mem_singleton] at hb
    rcases hb with hb | hb
    · exact ih (v / 256) b hb
    · rw [hb]; exact Nat.mod_lt _ (by norm_num)

theorem ofBeBytes_append_singleton (l : List Nat) (d : Nat) :
    ofBeBytes (l ++ [d]) = ofBeBytes l * 256 + d := by
  simp [ofBeBytes, List.foldl_append]

theorem ofBeBytes_beBytes (k v : Nat) : ofBeBytes (beBytes k v) = v % 256 ^ k := by
  induction k generalizing v with
  | zero => simp [beBytes, ofBeBytes, Nat.mod_one]
  | succ k ih =>
    rw [beBytes, ofBeBytes_append_singleton, ih]
    have h1 : v % (256 * 256 ^ k) / 256 = v / 256 % 256 ^ k :=
      Nat.mod_mul_right_div_self v 256 (256 ^ k)
    have h2 : v % (256 * 256 ^ k) % 256 = v % 256 :=
      Nat.mod_mod_of_dvd v ⟨256 ^ k, rfl⟩
    have h3 := Nat.div_add_mod (v % (256 * 256 ^ k)) 256
    rw [h1, h2] at h3
    rw [pow_succ']
    omega

theorem beBytes_ofBeBytes (l : List Nat) (hb : ∀ b ∈ l, b < 256) :
    beBytes l.length (ofBeBytes l) = l := by
  induction l using List.reverseRecOn with
  | nil => rfl
  | append_singleton l d ih =>
    have hd : d < 256 := hb d (by simp)
    rw [List.length_append, List.length_singleton, beBytes,
      ofBeBytes_append_singleton]
    have hdiv : (ofBeBytes l * 256 + d) / 256 = ofBeBytes l := by omega
    have hmod : (ofBeBytes l * 256 + d) % 256 = d := by omega
    rw [hdiv, hmod, ih (fun b hb' => hb b (by simp [hb']))]

theorem is_compactable_iff (q : AffinePoint) :
    is_compactable q = true ↔ decompactPoint q.x = some q := by
  simp [is_compactable]

theorem decompactPoint_lt {x : Nat} {q : AffinePoint}
    (h : decompactPoint x = some q) : x < fieldPrime := by
  by_contra hx
  unfold decompactPoint at h
  rw [if_neg hx] at h
  exact Option.noConfusion h

theorem decompactPoint_x {x : Nat} {q : AffinePoint}
    (h : decompactPoint x = some q) : q.x = x := by
  unfold decompactPoint at h
  split at h
  · split at h
    · injection h with h; rw [← h]
    · exact Option.noConfusion h
  · exact Option.noConfusion h

theorem decompactPoint_compactable {x : Nat} {q : AffinePoint}
    (h : decompactPoint x = some q) : is_compactable q = true := by
  rw [is_compactable_iff, decompactPoint_x h, h]

theorem compactable_one : is_compactableOpt (pubOf 1) = true := by decide!

theorem noncompactable_three : is_compactableOpt (pubOf 3) = false := by decide!

theorem groupOrder_lt : groupOrder < 256 ^ 32 := by decide

/-- The x-coordinate of a compactable point is a valid field element. -/
theorem compactable_x_lt {q : AffinePoint} (h : is_compactable q = true) :
    q.x < fieldPrime :=
  decompactPoint_lt ((is_compactable_iff q).mp h)

theorem fieldPrime_lt : fieldPrime < 256 ^ 32 := by decide

/-- Parsing the x-coordinate bytes of a compactable point after any tag byte
recovers exactly the point. -/
theorem tryFrom_compact_encoding (pt : AffinePoint) (t : Nat)
    (h : is_compactable pt = true) :
    PublicKey.tryFrom (t :: beBytes 32 pt.x) = .ok ⟨pt⟩ := by
  have hx : pt.x < 256 ^ 32 := lt_trans (compactable_x_lt h) fieldPrime_lt
  have hofbe : ofBeBytes (beBytes 32 pt.x) = pt.x := by
    rw [ofBeBytes_beBytes]; exact Nat.mod_eq_of_lt hx
  have hdec : decompactBytes ((t :: beBytes 32 pt.x).drop 1) = some pt := by
    rw [List.drop_one, List.tail_cons]
    unfold decompactBytes
    rw [if_pos (beBytes_length 32 pt.x), hofbe]
    exact (is_compactable_iff pt).mp h
  unfold PublicKey.tryFrom
  rw [hdec]

/-- The serialized form of a keypair is its tag byte followed by the 32-byte
big-endian scalar. -/
theorem to_bytes_eq (k : Keypair) :
    k.to_bytes = keyTagByte ⟨k.network, .EccCompact⟩ :: beBytes 32 k.inner := by
  unfold Keypair.to_bytes Keypair.bytesInto
  norm_num [List.replicate_succ]

/-- The tag byte written for a network parses back to that network. -/
theorem network_tag_roundtrip (nw : Network) :
    Network.tryFrom (keyTagByte ⟨nw, .EccCompact⟩) = .ok nw := by
  cases nw <;> rfl

/-- A constant CSPRNG stream that always draws the scalar 1. -/
def streamOne : Nat → Nat := fun _ => 1

theorem streamOne_compactable : ∃ i, compactableAt streamOne i :=
  ⟨0, compactable_one⟩

/-- A CSPRNG stream whose first `k` draws give the non-compactable scalar 3
and which then draws the compactable scalar 1 forever. -/
def delayStream (k : Nat) : Nat → Nat := fun i => if i < k then 3 else 1

theorem delayStream_compactable (k : Nat) : compactableAt (delayStream k) k := by
  unfold compactableAt delayStream
  rw [if_neg (lt_irrefl k)]
  exact compactable_one

/-! ### Claims -/

/-- Claim C2: every keypair returned by `generate(network, csprng)` carries
the requested network, has a compactable public point, and its public key
equals the returned private scalar times G; the scalar is one of the
stream's draws (the first compactable one). -/
theorem claimC2 (nw : Network) (s : Nat → Nat) (h : ∃ i, compactableAt s i) :
    (Keypair.generate nw s h).network = nw ∧
    is_compactableOpt (Keypair.generate nw s h).public_key.2 = true ∧
    (Keypair.generate nw s h).public_key =
      forNetwork nw (pubOf (Keypair.generate nw s h).inner) ∧
    ∃ i, (Keypair.generate nw s h).inner = s i := by
  refine ⟨rfl, ?_, rfl, ⟨Nat.find h, rfl⟩⟩
  have hs := Nat.find_spec h
  unfold compactableAt at hs
  exact hs

/-- Witness for C2 at the constant stream drawing the scalar 1. -/
theorem claimC2_witness :
    (Keypair.generate .MainNet streamOne streamOne_compactable).network = .MainNet ∧
    is_compactableOpt
      (Keypair.generate .MainNet streamOne streamOne_compactable).public_key.2 = true ∧
    (Keypair.generate .MainNet streamOne streamOne_compactable).public_key =
      forNetwork .MainNet
        (pubOf (Keypair.generate .MainNet streamOne streamOne_compactable).inner) ∧
    ∃ i, (Keypair.generate .MainNet streamOne streamOne_compactable).inner = streamOne i :=
  claimC2 .MainNet streamOne streamOne_compactable

/-- Claim C3: `generate` is total on every CSPRNG stream that eventually
yields a compactable draw — it returns the keypair of the first such draw —
and the retry loop has no iteration cap: for every bound `k` there is a
stream on which the first success is at index `k` and generation still
succeeds. -/
theorem claimC3 :
    (∀ (nw : Network) (s : Nat → Nat) (h : ∃ i, compactableAt s i),
      Keypair.generate nw s h =
        ⟨nw, forNetwork nw (pubOf (s (Nat.find h))), s (Nat.find h)⟩) ∧
    (∀ k : Nat, ∃ h : ∃ i, compactableAt (delayStream k) i,
      Nat.find h = k ∧
      Keypair.generate .MainNet (delayStream k) h =
        ⟨.MainNet, forNetwork .MainNet (pubOf 1), 1⟩) := by
  constructor
  · intro nw s h
    rfl
  · intro k
    refine ⟨⟨k, delayStream_compactable k⟩, ?_⟩
    have hfind : Nat.find ⟨k, delayStream_compactable k⟩ = k := by
      rw [Nat.find_eq_iff]
      refine ⟨delayStream_compactable k, fun j hj => ?_⟩
      unfold compactableAt delayStream
      rw [if_pos hj]
      simp [noncompactable_three]
    refine ⟨hfind, ?_⟩
    have h1 : delayStream k k = 1 := by simp [delayStream]
    unfold Keypair.generate
    simp only [hfind, h1]

/-- Witness for C3: on the stream whose first two draws are non-compactable
the loop runs to index 2 and still returns the keypair of the scalar 1. -/
theorem claimC3_witness :
    ∃ h : ∃ i, compactableAt (delayStream 2) i,
      Nat.find h = 2 ∧
      Keypair.generate .MainNet (delayStream 2) h =
        ⟨.MainNet, forNetwork .MainNet (pubOf 1), 1⟩ :=
  claimC3.2 2

/-- Claim C4: `generate_from_entropy` never resamples — when the entropy
bytes derive a valid scalar whose point is not compactable it fails with
`NotCompactError`, and when the point is compactable it returns the keypair
of exactly that scalar (determinism is immediate: the embedding is a pure
function of the entropy). -/
theorem claimC4 (nw : Network) (entropy : List Nat) (d : Nat)
    (hd : secretKeyFromBytes entropy = .ok d) :
    (is_compactableOpt (pubOf d) = false →
      Keypair.generate_from_entropy nw entropy = .error .NotCompact) ∧
    (is_compactableOpt (pubOf d) = true →
      Keypair.generate_from_entropy nw entropy =
        .ok ⟨nw, forNetwork nw (pubOf d), d⟩) := by
  unfold Keypair.generate_from_entropy
  rw [hd]
  constructor
  · intro hc
    simp [hc]
  · intro hc
    simp [hc]

/-- Witness for C4: entropy deriving the scalar 3 (non-compactable point)
fails with `NotCompactError`; entropy deriving the scalar 1 returns exactly
that keypair. -/
theorem claimC4_witness :
    Keypair.generate_from_entropy .MainNet (beBytes 32 3) = .error .NotCompact ∧
    Keypair.generate_from_entropy .TestNet (beBytes 32 1) =
      .ok ⟨.TestNet, forNetwork .TestNet (pubOf 1), 1⟩ :=
  ⟨(claimC4 .MainNet (beBytes 32 3) 3 (by decide)).1 noncompactable_three,
   (claimC4 .TestNet (beBytes 32 1) 1 (by decide)).2 compactable_one⟩

/-- Claim C5: for every keypair, `to_bytes` returns exactly 33 bytes whose
byte 0 is the one-byte KeyTag packing the keypair's network with the
EccCompact key type and whose bytes 1..33 are the 32-byte fixed-width
big-endian encoding of the private scalar. -/
theorem claimC5 (k : Keypair) :
    k.to_bytes.length = 33 ∧
    k.to_bytes.headD 0 = keyTagByte ⟨k.network, .EccCompact⟩ ∧
    k.to_bytes.drop 1 = beBytes 32 k.inner := by
  rw [to_bytes_eq]
  refine ⟨?_, rfl, rfl⟩
  simp [beBytes_length]

/-- Claim C6: keypair serialization round-trips — parsing the 33 bytes of
`to_bytes` of a valid generated keypair (scalar in [1, n-1], public key
derived from the scalar) yields an equal keypair. -/
theorem claimC6 (k : Keypair) (h1 : 1 ≤ k.inner) (h2 : k.inner < groupOrder)
    (h3 : k.public_key = forNetwork k.network (pubOf k.inner)) :
    Keypair.tryFrom k.to_bytes = .ok k := by
  rw [to_bytes_eq]
  have hsk : secretKeyFromBytes (beBytes 32 k.inner) = .ok k.inner := by
    unfold secretKeyFromBytes
    rw [if_pos (beBytes_length 32 k.inner), ofBeBytes_beBytes,
      Nat.mod_eq_of_lt (lt_trans h2 groupOrder_lt), if_pos ⟨h1, h2⟩]
  simp only [Keypair.tryFrom, network_tag_roundtrip, hsk]
  rw [← h3]

/-- Witness for C6 at the keypair of the scalar 1 on MainNet. -/
theorem claimC6_witness :
    Keypair.tryFrom (Keypair.to_bytes ⟨.MainNet, forNetwork .MainNet (pubOf 1), 1⟩) =
      .ok ⟨.MainNet, forNetwork .MainNet (pubOf 1), 1⟩ :=
  claimC6 ⟨.MainNet, forNetwork .MainNet (pubOf 1), 1⟩ (by decide) (by decide) rfl

/-- The base point is compactable (its y-coordinate is the minimal root). -/
theorem compactable_base : is_compactable basePoint = true := by decide!

/-- Claim C7: public-key serialization round-trips — for every compactable
point, writing its 32-byte compact encoding after any tag byte and parsing
the resulting 33 bytes yields the same public key. -/
theorem claimC7 (pt : AffinePoint) (t : Nat) (h : is_compactable pt = true) :
    PublicKey.tryFrom (t :: PublicKey.bytes_into ⟨pt⟩) = .ok ⟨pt⟩ := by
  have he := tryFrom_compact_encoding pt t h
  simpa [PublicKey.bytes_into] using he

/-- Witness for C7 at the base point. -/
theorem claimC7_witness :
    PublicKey.tryFrom (0 :: PublicKey.bytes_into ⟨basePoint⟩) = .ok ⟨basePoint⟩ :=
  claimC7 basePoint 0 compactable_base

/-- Claim C8: decoding 33 public-key bytes fails, and fails precisely with
`NotCompactError`, exactly when no compactable point has the 32-byte body
as its compact encoding; when such a point exists the decoder returns it. -/
theorem claimC8 (input : List Nat) (h33 : input.length = 33)
    (hb : ∀ b ∈ input, b < 256) :
    (PublicKey.tryFrom input = .error .NotCompact ↔
      ¬ ∃ pt : AffinePoint, is_compactable pt = true ∧ beBytes 32 pt.x = input.drop 1) ∧
    (∀ pt : AffinePoint, is_compactable pt = true → beBytes 32 pt.x = input.drop 1 →
      PublicKey.tryFrom input = .ok ⟨pt⟩) := by
  obtain ⟨t, rest, rfl⟩ : ∃ t rest, input = t :: rest := by
    cases input with
    | nil => simp at h33
    | cons t rest => exact ⟨t, rest, rfl⟩
  have hrest32 : rest.length = 32 := by simpa using h33
  have hrb : ∀ b ∈ rest, b < 256 := fun b hbr => hb b (List.mem_cons_of_mem t hbr)
  have hdrop : (t :: rest).drop 1 = rest := rfl
  rw [hdrop]
  constructor
  · constructor
    · intro herr hex
      obtain ⟨pt, hpt, henc⟩ := hex
      have hok : PublicKey.tryFrom (t :: rest) = .ok ⟨pt⟩ := by
        rw [← henc]
        exact tryFrom_compact_encoding pt t hpt
      rw [hok] at herr
      exact Except.noConfusion herr
    · intro hnex
      cases hdec : decompactBytes rest with
      | none =>
        unfold PublicKey.tryFrom
        rw [hdrop, hdec]
      | some q =>
        exfalso
        apply hnex
        have hq : decompactPoint (ofBeBytes rest) = some q := by
          unfold decompactBytes at hdec
          rw [if_pos hrest32] at hdec
          exact hdec
        refine ⟨q, decompactPoint_compactable hq, ?_⟩
        rw [decompactPoint_x hq]
        calc beBytes 32 (ofBeBytes rest)
            = beBytes rest.length (ofBeBytes rest) := by rw [hrest32]
          _ = rest := beBytes_ofBeBytes rest hrb
  · intro pt hpt henc
    rw [← henc]
    exact tryFrom_compact_encoding pt t hpt

/-- The x-coordinate from the repository's `non_compact_key` test vector. -/
def testVectorX : Nat :=
  0x3ca9d8667de0c07aa71d98b3c8065d2e97ab7bb9cb8776bcc0577a7ac58acd4e

/-- The repository's 33-byte `non_compact_key` test input. -/
def testVectorBytes : List Nat := 0 :: beBytes 32 testVectorX

/-- The repository's non-compact test vector is rejected with
`NotCompactError`, as its `non_compact_key` test asserts. -/
theorem testVector_notCompact :
    PublicKey.tryFrom testVectorBytes = .error .NotCompact := by decide!

/-- Witness for C8 at the repository's non-compact test vector: decoding
fails with `NotCompactError` and hence no compactable point has its body as
compact encoding. -/
theorem claimC8_witness :
    PublicKey.tryFrom testVectorBytes = .error .NotCompact ∧
    ¬ ∃ pt : AffinePoint, is_compactable pt = true ∧
        beBytes 32 pt.x = testVectorBytes.drop 1 :=
  ⟨testVector_notCompact,
   (claimC8 testVectorBytes (by decide) (by decide)).1.mp testVector_notCompact⟩

/-- Claim C10: `verify` first parses the signature as DER and fails with
`SignatureDecodeError` on every byte string that is not a well-formed DER
ECDSA signature; on well-formed DER it returns success when the signature
checks against the message and public point and `SignatureInvalidError`
otherwise (the embedding is a pure function, so nothing is mutated). -/
theorem claimC10 (k : PublicKey) (msg sig : List Nat) :
    (parseDerSig sig = none → k.verify msg sig = .error .SignatureDecode) ∧
    (∀ r s : Nat, parseDerSig sig = some (r, s) →
      (rawVerify k.point msg r s = true → k.verify msg sig = .ok ()) ∧
      (rawVerify k.point msg r s = false →
        k.verify msg sig = .error .SignatureInvalid)) := by
  constructor
  · intro hp
    unfold PublicKey.verify
    rw [hp]
  · intro r s hp
    constructor
    · intro hv
      unfold PublicKey.verify
      rw [hp]
      simp [hv]
    · intro hv
      unfold PublicKey.verify
      rw [hp]
      simp [hv]

/-- Witness for C10: the empty byte string is not DER and is rejected as a
decode failure; a well-formed DER signature with r = 0 parses but fails
verification, giving the invalid-signature failure. -/
theorem claimC10_witness :
    PublicKey.verify ⟨basePoint⟩ [] [] = .error .SignatureDecode ∧
    PublicKey.verify ⟨basePoint⟩ [] [48, 6, 2, 1, 0, 2, 1, 1] =
      .error .SignatureInvalid :=
  ⟨(claimC10 ⟨basePoint⟩ [] []).1 (by decide),
   ((claimC10 ⟨basePoint⟩ [] [48, 6, 2, 1, 0, 2, 1, 1]).2 0 1 (by decide)).2
     (by decide)⟩

/-- The 33-byte serialization of the MainNet keypair with scalar 3. -/
def threeKeyBytes : List Nat := 0 :: beBytes 32 3

/-- Parsing `threeKeyBytes` succeeds and yields the keypair of the
scalar 3, whose public point 3·G is not compactable. -/
theorem tryFrom_three :
    Keypair.tryFrom threeKeyBytes =
      .ok ⟨.MainNet, forNetwork .MainNet (pubOf 3), 3⟩ := by decide!

/-- Claim C1 counterexample: the tagged 33-byte encoding of the scalar 3 is
accepted by `TryFrom`, yet the public key of the resulting keypair is not
compactable — refuting the claim that every keypair constructed by parsing
tagged bytes has a compactable public point. -/
theorem claimC1_counterexample :
    Keypair.tryFrom threeKeyBytes =
      .ok ⟨.MainNet, forNetwork .MainNet (pubOf 3), 3⟩ ∧
    is_compactableOpt (forNetwork .MainNet (pubOf 3)).2 = false :=
  ⟨tryFrom_three, noncompactable_three⟩

/-- Claim C1 (amended): every keypair constructed by `generate`,
`generate_from_entropy` (on success) or `TryFrom` stores as public key the
private scalar times G; the two generation paths additionally guarantee a
compactable public point, while the `TryFrom` parsing path does not
re-check compactability. -/
theorem claimC1_amended :
    (∀ (nw : Network) (s : Nat → Nat) (h : ∃ i, compactableAt s i),
      (Keypair.generate nw s h).public_key =
        forNetwork nw (pubOf (Keypair.generate nw s h).inner) ∧
      is_compactableOpt (Keypair.generate nw s h).public_key.2 = true) ∧
    (∀ (nw : Network) (entropy : List Nat) (k : Keypair),
      Keypair.generate_from_entropy nw entropy = .ok k →
      k.network = nw ∧
      k.public_key = forNetwork k.network (pubOf k.inner) ∧
      is_compactableOpt k.public_key.2 = true) ∧
    (∀ (input : List Nat) (k : Keypair),
      Keypair.tryFrom input = .ok k →
      k.public_key = forNetwork k.network (pubOf k.inner)) := by
  refine ⟨?_, ?_, ?_⟩
  · intro nw s h
    refine ⟨rfl, ?_⟩
    have hs := Nat.find_spec h
    unfold compactableAt at hs
    exact hs
  · intro nw entropy k hok
    unfold Keypair.generate_from_entropy at hok
    split at hok
    · exact Except.noConfusion hok
    · split at hok
      · rename_i hc
        injection hok with hok
        subst hok
        exact ⟨rfl, rfl, hc⟩
      · exact Except.noConfusion hok
  · intro input k hok
    cases input with
    | nil =>
      simp only [Keypair.tryFrom] at hok
      exact Except.noConfusion hok
    | cons t rest =>
      simp only [Keypair.tryFrom] at hok
      split at hok
      · exact Except.noConfusion hok
      · split at hok
        · exact Except.noConfusion hok
        · injection hok with hok
          subst hok
          rfl

/-- Witness for the amended C1: its three construction paths exercised at
the constant stream drawing 1, at entropy deriving the scalar 1, and at the
33-byte encoding of the scalar 3. -/
theorem claimC1_amended_witness :
    ((Keypair.generate .MainNet streamOne streamOne_compactable).public_key =
        forNetwork .MainNet
          (pubOf (Keypair.generate .MainNet streamOne streamOne_compactable).inner) ∧
      is_compactableOpt
        (Keypair.generate .MainNet streamOne streamOne_compactable).public_key.2 = true) ∧
    ((⟨.TestNet, forNetwork .TestNet (pubOf 1), 1⟩ : Keypair).network = .TestNet ∧
      (⟨.TestNet, forNetwork .TestNet (pubOf 1), 1⟩ : Keypair).public_key =
        forNetwork .TestNet (pubOf 1) ∧
      is_compactableOpt
        (⟨.TestNet, forNetwork .TestNet (pubOf 1), 1⟩ : Keypair).public_key.2 = true) ∧
    (⟨.MainNet, forNetwork .MainNet (pubOf 3), 3⟩ : Keypair).public_key =
      forNetwork .MainNet (pubOf 3) :=
  ⟨claimC1_amended.1 .MainNet streamOne streamOne_compactable,
   claimC1_amended.2.1 .TestNet (beBytes 32 1) ⟨.TestNet, forNetwork .TestNet (pubOf 1), 1⟩
     (by decide!),
   claimC1_amended.2.2 threeKeyBytes ⟨.MainNet, forNetwork .MainNet (pubOf 3), 3⟩
     tryFrom_three⟩

end HeliumEccCompact
